import Mathlib

/-!
Shallow embedding of the SpinPAK contour-generation core
(`spinpak_interactive_app.py`): Joukowsky airfoil generation, planar
rotation/reflection, fillet objective functions, the closed-form line-joint
fillet, rotational replication, and SVG viewBox computation.  Points are
pairs of reals; numpy float arithmetic is modelled by exact real arithmetic
(with Lean's division-by-zero convention standing in where the source
divides by zero unguarded).
-/

namespace SpinPAK

/-- Planar dot product. -/
noncomputable def dot (p q : ℝ × ℝ) : ℝ := p.1 * q.1 + p.2 * q.2

/-- Planar cross product (z-component). -/
noncomputable def cross (p q : ℝ × ℝ) : ℝ := p.1 * q.2 - p.2 * q.1

/-- Squared Euclidean norm of a planar point. -/
noncomputable def norm2 (p : ℝ × ℝ) : ℝ := p.1 ^ 2 + p.2 ^ 2

/-- Euclidean norm, as computed by `np.linalg.norm`. -/
noncomputable def enorm (p : ℝ × ℝ) : ℝ := Real.sqrt (norm2 p)

/-- Normalize a vector: `v / np.linalg.norm(v)` componentwise. -/
noncomputable def unitize (p : ℝ × ℝ) : ℝ × ℝ :=
  ((enorm p)⁻¹ * p.1, (enorm p)⁻¹ * p.2)

/-- Degrees to radians, as `np.radians`. -/
noncomputable def radians (a : ℝ) : ℝ := a * Real.pi / 180

/-- Apply the 2×2 matrix [[c, -s], [s, c]] to a point. -/
noncomputable def rotM (c s : ℝ) (p : ℝ × ℝ) : ℝ × ℝ :=
  (c * p.1 - s * p.2, s * p.1 + c * p.2)

/-- One point of the source `rotate(points, angle_deg, center)`:
`(p - center) @ R.T + center` with `R = [[cos, -sin], [sin, cos]]`. -/
noncomputable def rotatePoint (angleDeg : ℝ) (center : ℝ × ℝ) (p : ℝ × ℝ) : ℝ × ℝ :=
  let θ := radians angleDeg
  let q := rotM (Real.cos θ) (Real.sin θ) (p.1 - center.1, p.2 - center.2)
  (q.1 + center.1, q.2 + center.2)

/-- The source `rotate`: maps every point through the rotation. -/
noncomputable def rotate (pts : List (ℝ × ℝ)) (angleDeg : ℝ) (center : ℝ × ℝ) :
    List (ℝ × ℝ) :=
  pts.map (rotatePoint angleDeg center)

/-- One point of the source `reflect(points, angle_deg)`: rotate by the matrix
built from `cos(-θ)`/`sin(-θ)`, negate the Y coordinate, rotate back by the
matrix built from `cos θ`/`sin θ`. -/
noncomputable def reflectPoint (angleDeg : ℝ) (p : ℝ × ℝ) : ℝ × ℝ :=
  let θ := radians angleDeg
  let pr := rotM (Real.cos (-θ)) (Real.sin (-θ)) p
  let prr := (pr.1, -pr.2)
  rotM (Real.cos θ) (Real.sin θ) prr

/-- The source `reflect`: maps every point through the reflection. -/
noncomputable def reflect (pts : List (ℝ × ℝ)) (angleDeg : ℝ) : List (ℝ × ℝ) :=
  pts.map (reflectPoint angleDeg)

/-- The overlay replication of the airfoil performed in
`RevolutionCanvas.plot_combined` and `RevolutionCanvas.export_to_svg`:
when `n_revolutions == 1` the unrotated point array itself is used, otherwise
`n` copies rotated by `i * (360 / n)` degrees about the origin. -/
noncomputable def overlayReplicas (airfoil : List (ℝ × ℝ)) (n : ℕ) :
    List (List (ℝ × ℝ)) :=
  if n = 1 then [airfoil]
  else (List.range n).map (fun i => rotate airfoil ((i : ℝ) * (360 / (n : ℝ))) (0, 0))

/-- The replication loop at the end of `generate_revolution_shape`:
`for angle in angles: for path in base: append rotate(path, angle, (0,0))`. -/
noncomputable def replicate (base : List (List (ℝ × ℝ))) (angles : List ℝ) :
    List (List (ℝ × ℝ)) :=
  angles.flatMap (fun a => base.map (fun c => rotate c a (0, 0)))

/- ------------------------------------------------------------------ -/
/- Basic lemmas about the planar helpers.                              -/
/- ------------------------------------------------------------------ -/

lemma rotM_rotM_neg (c s : ℝ) (h : s ^ 2 + c ^ 2 = 1) (p : ℝ × ℝ) :
    rotM c s (rotM c (-s) p) = p := by
  obtain ⟨x, y⟩ := p
  simp only [rotM, Prod.mk.injEq]
  constructor
  · linear_combination x * h
  · linear_combination y * h

lemma rotM_neg_rotM (c s : ℝ) (h : s ^ 2 + c ^ 2 = 1) (p : ℝ × ℝ) :
    rotM c (-s) (rotM c s p) = p := by
  have := rotM_rotM_neg c (-s) (by linear_combination h) p
  simpa using this

lemma reflectPoint_involutive (a : ℝ) (p : ℝ × ℝ) :
    reflectPoint a (reflectPoint a p) = p := by
  set θ := radians a with hθ
  have h : Real.sin θ ^ 2 + Real.cos θ ^ 2 = 1 := Real.sin_sq_add_cos_sq θ
  simp only [reflectPoint, Real.cos_neg, Real.sin_neg, hθ]
  obtain ⟨x, y⟩ := p
  simp only [rotM, Prod.mk.injEq]
  constructor
  · linear_combination (x * Real.cos θ ^ 2 + x * Real.sin θ ^ 2 + x) * h
  · linear_combination (y * Real.cos θ ^ 2 + y * Real.sin θ ^ 2 + y) * h

/- ------------------------------------------------------------------ -/
/- Claim theorems: transforms.                                         -/
/- ------------------------------------------------------------------ -/

/-- Claim C6: for every finite point list and every axis angle, applying the
reflection twice with the same angle returns the original points (here proved
exactly, which implies the claimed floating tolerance). -/
theorem C6_reflect_involution (pts : List (ℝ × ℝ)) (a : ℝ) :
    reflect (reflect pts a) a = pts := by
  unfold reflect
  rw [List.map_map]
  have : reflectPoint a ∘ reflectPoint a = id := by
    funext p
    exact reflectPoint_involutive a p
  rw [this, List.map_id]

/-- Claim C7: when the number of revolutions is 1, the overlay replication
output is exactly the unrotated base airfoil point array (no rotation is
applied: the `if` takes the identity branch). -/
theorem C7_single_revolution_identity (airfoil : List (ℝ × ℝ)) :
    overlayReplicas airfoil 1 = [airfoil] := by
  simp [overlayReplicas]

/-- Claim C10: rotation and reflection return exactly as many points as the
input, with the `i`-th output point being the transform of the `i`-th input
point (no points added, dropped, or reordered). -/
theorem C10_transforms_pointwise (pts : List (ℝ × ℝ)) (a : ℝ) (c : ℝ × ℝ) (i : ℕ) :
    (rotate pts a c).length = pts.length ∧
    (reflect pts a).length = pts.length ∧
    (rotate pts a c)[i]? = pts[i]?.map (rotatePoint a c) ∧
    (reflect pts a)[i]? = pts[i]?.map (reflectPoint a) := by
  refine ⟨?_, ?_, ?_, ?_⟩ <;> simp [rotate, reflect, List.getElem?_map]

/- ------------------------------------------------------------------ -/
/- Joukowsky airfoil generation (`plot_joukowsky`).                    -/
/- ------------------------------------------------------------------ -/

/-- The k-th sample angle of `np.linspace(0, 2*pi, 400)`: step `2π/399`,
both endpoints included. -/
noncomputable def thetaSample (k : ℕ) : ℝ := 2 * Real.pi * (k : ℝ) / 399

/-- The k-th sample of the generating circle:
`w = (x_center + R*cos θ) + 1j*(y_center + R*sin θ)`. -/
noncomputable def joukowskyW (R xc yc : ℝ) (k : ℕ) : ℂ :=
  ⟨xc + R * Real.cos (thetaSample k), yc + R * Real.sin (thetaSample k)⟩

/-- The source `plot_joukowsky(R, x_center, y_center, scale)`: 400 samples of
`z = w + R^2 / w`, returned as `(z.real * scale, z.imag * scale)`.  The source
performs no domain check; where `w = 0` the division is unguarded (numpy emits
non-finite values there; the real-number model uses the division-by-zero
convention in its place). -/
noncomputable def plot_joukowsky (R xc yc s : ℝ) : List (ℝ × ℝ) :=
  (List.range 400).map (fun k =>
    ((joukowskyW R xc yc k + (R : ℂ) ^ 2 / joukowskyW R xc yc k).re * s,
     (joukowskyW R xc yc k + (R : ℂ) ^ 2 / joukowskyW R xc yc k).im * s))

lemma joukowskyW_re (R xc yc : ℝ) (k : ℕ) :
    (joukowskyW R xc yc k).re = xc + R * Real.cos (thetaSample k) := rfl

lemma joukowskyW_im (R xc yc : ℝ) (k : ℕ) :
    (joukowskyW R xc yc k).im = yc + R * Real.sin (thetaSample k) := rfl

lemma plot_joukowsky_length (R xc yc s : ℝ) :
    (plot_joukowsky R xc yc s).length = 400 := by
  simp [plot_joukowsky]

lemma plot_joukowsky_get (R xc yc s : ℝ) (k : ℕ) (hk : k < 400) :
    (plot_joukowsky R xc yc s)[k]? =
      some ((joukowskyW R xc yc k + (R : ℂ) ^ 2 / joukowskyW R xc yc k).re * s,
            (joukowskyW R xc yc k + (R : ℂ) ^ 2 / joukowskyW R xc yc k).im * s) := by
  simp [plot_joukowsky, List.getElem?_map, List.getElem?_range, hk]

/-- Positivity of the squared distance of the default-scenario circle from the
origin, for any point of the unit circle. -/
lemma scenario_circle_off_origin (c s : ℝ) (h : c ^ 2 + s ^ 2 = 1) :
    0 < (-0.1 + 0.85 * c) ^ 2 + (0.23 + 0.85 * s) ^ 2 := by
  nlinarith [sq_nonneg (0.391 * c + 0.17 * s), sq_nonneg (-0.17 * c + 0.391 * s + 0.7854)]

lemma joukowskyW_default_ne_zero (k : ℕ) : joukowskyW 0.85 (-0.1) 0.23 k ≠ 0 := by
  intro h
  rw [Complex.ext_iff] at h
  obtain ⟨h1, h2⟩ := h
  rw [joukowskyW_re] at h1
  rw [joukowskyW_im] at h2
  have hcs : Real.cos (thetaSample k) ^ 2 + Real.sin (thetaSample k) ^ 2 = 1 := by
    linarith [Real.sin_sq_add_cos_sq (thetaSample k)]
  have hpos := scenario_circle_off_origin (Real.cos (thetaSample k))
    (Real.sin (thetaSample k)) hcs
  rw [Complex.zero_re] at h1
  rw [Complex.zero_im] at h2
  nlinarith [hpos]

lemma joukowskyW_wraps (R xc yc : ℝ) : joukowskyW R xc yc 399 = joukowskyW R xc yc 0 := by
  have h399 : thetaSample 399 = 2 * Real.pi := by
    unfold thetaSample
    norm_num
  have h0 : thetaSample 0 = 0 := by
    simp [thetaSample]
  apply Complex.ext
  · rw [joukowskyW_re, joukowskyW_re, h399, h0, Real.cos_two_pi, Real.cos_zero]
  · rw [joukowskyW_im, joukowskyW_im, h399, h0, Real.sin_two_pi, Real.sin_zero]

/-- Claim C2: the airfoil generator returns exactly 400 points; the k-th point
is `(scale·Re(z), scale·Im(z))` with `z = w + R²/w` at the k-th sampled `w`;
the sample angles run uniformly (step `2π/399`) over `[0, 2π]` with both
endpoints included; for the scenario `R = 0.85, xCenter = −0.1, yCenter =
0.23, scale = 1` every sampled `w` is nonzero (hence every coordinate is a
well-defined finite real); and the first and last points are equal exactly
(hence agree within `1e-9`). -/
theorem C2_airfoil_generation :
    (∀ R xc yc s : ℝ, (plot_joukowsky R xc yc s).length = 400) ∧
    (∀ (R xc yc s : ℝ) (k : ℕ), k < 400 →
      (plot_joukowsky R xc yc s)[k]? =
        some (s * (joukowskyW R xc yc k + (R : ℂ) ^ 2 / joukowskyW R xc yc k).re,
              s * (joukowskyW R xc yc k + (R : ℂ) ^ 2 / joukowskyW R xc yc k).im)) ∧
    thetaSample 0 = 0 ∧
    thetaSample 399 = 2 * Real.pi ∧
    (∀ k : ℕ, thetaSample (k + 1) - thetaSample k = 2 * Real.pi / 399) ∧
    (∀ k : ℕ, joukowskyW 0.85 (-0.1) 0.23 k ≠ 0) ∧
    (∀ R xc yc s : ℝ, (plot_joukowsky R xc yc s)[0]? = (plot_joukowsky R xc yc s)[399]?) := by
  refine ⟨plot_joukowsky_length, ?_, by simp [thetaSample], ?_, ?_,
    joukowskyW_default_ne_zero, ?_⟩
  · intro R xc yc s k hk
    rw [plot_joukowsky_get R xc yc s k hk]
    rw [mul_comm _ s, mul_comm _ s]
  · unfold thetaSample
    norm_num
  · intro k
    unfold thetaSample
    push_cast
    ring
  · intro R xc yc s
    rw [plot_joukowsky_get R xc yc s 0 (by norm_num),
      plot_joukowsky_get R xc yc s 399 (by norm_num), joukowskyW_wraps]

/-- Witness for C2 at concrete inputs. -/
theorem C2_witness :
    (plot_joukowsky 1 0 0 1)[5]? =
      some (1 * (joukowskyW 1 0 0 5 + (1 : ℂ) ^ 2 / joukowskyW 1 0 0 5).re,
            1 * (joukowskyW 1 0 0 5 + (1 : ℂ) ^ 2 / joukowskyW 1 0 0 5).im) :=
  C2_airfoil_generation.2.1 1 0 0 1 5 (by norm_num)

/-- The generating circle with `R = 1`, center `(-1, 0)` passes through the
origin at the sampled angle `θ = 0` (sample index 0). -/
lemma joukowskyW_singular : joukowskyW 1 (-1) 0 0 = 0 := by
  have h0 : thetaSample 0 = 0 := by simp [thetaSample]
  apply Complex.ext
  · rw [joukowskyW_re, h0, Real.cos_zero, Complex.zero_re]
    norm_num
  · rw [joukowskyW_im, h0, Real.sin_zero, Complex.zero_im]
    norm_num

/-- Counterexample to claim C1: for `R = 1, xCenter = −1, yCenter = 0` the
generating circle passes through the origin at the sampled angle `θ = 0`
(`w = 0`), yet the generator does not fail: it still returns all 400 points,
and at the singular sample it silently emits a value (the unguarded division
by zero; numpy produces non-finite coordinates there) instead of surfacing a
DomainError. -/
theorem C1_counterexample :
    joukowskyW 1 (-1) 0 0 = 0 ∧
    (plot_joukowsky 1 (-1) 0 1).length = 400 ∧
    (plot_joukowsky 1 (-1) 0 1)[0]? = some (0, 0) := by
  refine ⟨joukowskyW_singular, plot_joukowsky_length 1 (-1) 0 1, ?_⟩
  rw [plot_joukowsky_get 1 (-1) 0 1 0 (by norm_num)]
  rw [joukowskyW_singular]
  simp

/-- Claim C1 (amended): the generator performs no domain check.  Whenever the
generating circle passes through the origin at a sampled angle (`w = 0` at
some sample `k < 400`), generation still returns the full list of 400 points
and the singular sample is computed by the unguarded division by zero (in the
real-number model the junk value `(0, 0)`; numpy emits non-finite values); no
DomainError is raised. -/
theorem C1_no_domain_check (R xc yc s : ℝ) (k : ℕ) (hk : k < 400)
    (hw : joukowskyW R xc yc k = 0) :
    (plot_joukowsky R xc yc s).length = 400 ∧
    (plot_joukowsky R xc yc s)[k]? = some (0, 0) := by
  refine ⟨plot_joukowsky_length R xc yc s, ?_⟩
  rw [plot_joukowsky_get R xc yc s k hk, hw]
  simp

/-- Witness for the amended claim C1 at the concrete singular input. -/
theorem C1_witness :
    (plot_joukowsky 1 (-1) 0 1).length = 400 ∧
    (plot_joukowsky 1 (-1) 0 1)[0]? = some (0, 0) :=
  C1_no_domain_check 1 (-1) 0 1 0 (by norm_num) joukowskyW_singular

/- ------------------------------------------------------------------ -/
/- Tangent-circle fit objectives (`objective_inner`, `objective_outer`). -/
/- ------------------------------------------------------------------ -/

/-- Clamp a parameter to `[0, 1]` (projection parameter of a segment). -/
noncomputable def clamp01 (t : ℝ) : ℝ := max 0 (min t 1)

/-- Exact point-to-segment distance, as computed by
`Point(center).distance(LineString(seg))` for a two-point segment:
perpendicular distance when the projection falls inside the segment,
endpoint distance otherwise. -/
noncomputable def distToSegment (p a b : ℝ × ℝ) : ℝ :=
  let t := clamp01 (dot (p.1 - a.1, p.2 - a.2) (b.1 - a.1, b.2 - a.2) /
    norm2 (b.1 - a.1, b.2 - a.2))
  enorm (p.1 - (a.1 + t * (b.1 - a.1)), p.2 - (a.2 + t * (b.2 - a.2)))

/-- Distance to a sampled arc: `np.min(np.linalg.norm(arc_pts - center, axis=1))`,
the minimum over the arc's discrete samples. -/
noncomputable def minArcDist (arc : List (ℝ × ℝ)) (c : ℝ × ℝ) : ℝ :=
  match arc.map (fun q => enorm (q.1 - c.1, q.2 - c.2)) with
  | [] => 0
  | d :: ds => ds.foldl min d

/-- The source `objective_inner(center)` (inner rounded corner, with the
source constants `R = 0.05`, `r2 = 1.2`), parametrized by the arc samples and
the segment endpoints it closes over: a list of squared residuals, extended by
the weighted penalty exactly when `|center| > r2 - R`, then summed. -/
noncomputable def objective_inner (arc : List (ℝ × ℝ)) (sa sb center : ℝ × ℝ) : ℝ :=
  let R : ℝ := 0.05
  let r2 : ℝ := 1.2
  let distSeg := distToSegment center sa sb
  let dArc := minArcDist arc center
  let originDist := enorm center
  let dists : List ℝ := [(distSeg - R) ^ 2, (dArc - R) ^ 2]
  let dists := if originDist > r2 - R then dists ++ [10 * (originDist - (r2 - R)) ^ 2]
    else dists
  dists.sum

/-- The source `objective_outer(center)` (outer rounded corner, with the
source constants `R = 0.05`, `r1 = 1.0`): penalty weighted `1000`, added
exactly when `|center| < r1 + R`. -/
noncomputable def objective_outer (arc : List (ℝ × ℝ)) (sa sb center : ℝ × ℝ) : ℝ :=
  let R : ℝ := 0.05
  let r1 : ℝ := 1.0
  let distSeg := distToSegment center sa sb
  let dArc := minArcDist arc center
  let originDist := enorm center
  let dists : List ℝ := [(distSeg - R) ^ 2, (dArc - R) ^ 2]
  let dists := if originDist < r1 + R then dists ++ [1000 * (r1 + R - originDist) ^ 2]
    else dists
  dists.sum

/-- Claim C3: each fit objective is the sum of squared
`(distance − targetRadius)` residuals — exact distance for the segment,
minimum over discrete samples for the arc — plus a weighted quadratic penalty
included exactly when the side constraint is violated (inner corner:
`‖center‖ > r2 − R = 1.15`; outer corner: `‖center‖ < r1 + R = 1.05`); when
the constraint is satisfied no penalty term contributes. -/
theorem C3_objective_structure (arc : List (ℝ × ℝ)) (sa sb center : ℝ × ℝ) :
    (objective_inner arc sa sb center =
      (distToSegment center sa sb - 0.05) ^ 2 + (minArcDist arc center - 0.05) ^ 2 +
        (if enorm center > 1.15 then 10 * (enorm center - 1.15) ^ 2 else 0)) ∧
    (enorm center ≤ 1.15 →
      objective_inner arc sa sb center =
        (distToSegment center sa sb - 0.05) ^ 2 + (minArcDist arc center - 0.05) ^ 2) ∧
    (objective_outer arc sa sb center =
      (distToSegment center sa sb - 0.05) ^ 2 + (minArcDist arc center - 0.05) ^ 2 +
        (if enorm center < 1.05 then 1000 * (1.05 - enorm center) ^ 2 else 0)) ∧
    (1.05 ≤ enorm center →
      objective_outer arc sa sb center =
        (distToSegment center sa sb - 0.05) ^ 2 + (minArcDist arc center - 0.05) ^ 2) := by
  have h115 : (1.2 : ℝ) - 0.05 = 1.15 := by norm_num
  have h105 : (1.0 : ℝ) + 0.05 = 1.05 := by norm_num
  have hinner : objective_inner arc sa sb center =
      (distToSegment center sa sb - 0.05) ^ 2 + (minArcDist arc center - 0.05) ^ 2 +
        (if enorm center > 1.15 then 10 * (enorm center - 1.15) ^ 2 else 0) := by
    simp only [objective_inner, h115]
    split_ifs with h
    · simp only [List.sum_append, List.sum_cons, List.sum_nil]
      ring
    · simp only [List.sum_cons, List.sum_nil]
      ring
  have houter : objective_outer arc sa sb center =
      (distToSegment center sa sb - 0.05) ^ 2 + (minArcDist arc center - 0.05) ^ 2 +
        (if enorm center < 1.05 then 1000 * (1.05 - enorm center) ^ 2 else 0) := by
    simp only [objective_outer, h105]
    split_ifs with h
    · simp only [List.sum_append, List.sum_cons, List.sum_nil]
      ring
    · simp only [List.sum_cons, List.sum_nil]
      ring
  refine ⟨hinner, ?_, houter, ?_⟩
  · intro hle
    rw [hinner, if_neg (not_lt.mpr hle), add_zero]
  · intro hge
    rw [houter, if_neg (not_lt.mpr hge), add_zero]

/-- Witness for C3: with the center at the origin the inner constraint is
satisfied and no penalty contributes; with the center at `(2, 0)` the outer
constraint is satisfied and no penalty contributes. -/
theorem C3_witness :
    (objective_inner [] (0, 0) (1, 0) (0, 0) =
      (distToSegment (0, 0) (0, 0) (1, 0) - 0.05) ^ 2 +
        (minArcDist [] (0, 0) - 0.05) ^ 2) ∧
    (objective_outer [] (0, 0) (1, 0) (2, 0) =
      (distToSegment (2, 0) (0, 0) (1, 0) - 0.05) ^ 2 +
        (minArcDist [] (2, 0) - 0.05) ^ 2) := by
  constructor
  · exact (C3_objective_structure [] (0, 0) (1, 0) (0, 0)).2.1
      (by simp [enorm, norm2]; norm_num)
  · exact (C3_objective_structure [] (0, 0) (1, 0) (2, 0)).2.2.2
      (by
        have : enorm (2, 0) = 2 := by
          simp only [enorm, norm2]
          rw [show ((2 : ℝ) ^ 2 + 0 ^ 2) = 2 ^ 2 by norm_num, Real.sqrt_sq (by norm_num)]
        rw [this]
        norm_num)

/- ------------------------------------------------------------------ -/
/- SVG export bounds and viewBox (`RevolutionCanvas.export_to_svg`).   -/
/- ------------------------------------------------------------------ -/

/-- Minimum of a list of reals (per-axis `all_points.min(axis=0)`). -/
noncomputable def minList (l : List ℝ) : ℝ :=
  match l with
  | [] => 0
  | x :: xs => xs.foldl min x

/-- Maximum of a list of reals (per-axis `all_points.max(axis=0)`). -/
noncomputable def maxList (l : List ℝ) : ℝ :=
  match l with
  | [] => 0
  | x :: xs => xs.foldl max x

/-- The bounds/viewBox computation of `export_to_svg`: `padding = 0.2`,
`width = max_x - min_x + 2*padding`, `height = max_y - min_y + 2*padding`,
`viewBox = (min_x - padding, min_y - padding, width, height)`. -/
noncomputable def exportViewBox (pts : List (ℝ × ℝ)) : ℝ × ℝ × ℝ × ℝ :=
  let padding : ℝ := 0.2
  let minX := minList (pts.map Prod.fst)
  let minY := minList (pts.map Prod.snd)
  let maxX := maxList (pts.map Prod.fst)
  let maxY := maxList (pts.map Prod.snd)
  (minX - padding, minY - padding, maxX - minX + 2 * padding, maxY - minY + 2 * padding)

/-- Claim C9: for a non-empty exported point set, the viewBox is the
axis-aligned bounding box expanded by the padding `0.2` on every side: its
left/bottom corner sits `0.2` below the minima, its right/top edge `0.2`
above the maxima, and its width and height each exceed the raw extent by
exactly `0.4`. -/
theorem C9_viewbox_padding (pts : List (ℝ × ℝ)) (_h : pts ≠ []) :
    (exportViewBox pts).1 = minList (pts.map Prod.fst) - 0.2 ∧
    (exportViewBox pts).2.1 = minList (pts.map Prod.snd) - 0.2 ∧
    (exportViewBox pts).2.2.1 =
      (maxList (pts.map Prod.fst) - minList (pts.map Prod.fst)) + 0.4 ∧
    (exportViewBox pts).2.2.2 =
      (maxList (pts.map Prod.snd) - minList (pts.map Prod.snd)) + 0.4 ∧
    (exportViewBox pts).1 + (exportViewBox pts).2.2.1 =
      maxList (pts.map Prod.fst) + 0.2 ∧
    (exportViewBox pts).2.1 + (exportViewBox pts).2.2.2 =
      maxList (pts.map Prod.snd) + 0.2 := by
  refine ⟨?_, ?_, ?_, ?_, ?_, ?_⟩ <;>
    · simp only [exportViewBox]
      try ring

/-- Witness for C9 at a concrete two-point set. -/
theorem C9_witness :
    (exportViewBox [((1 : ℝ), (2 : ℝ)), (3, 1)]).2.2.1 =
      (maxList ([((1 : ℝ), (2 : ℝ)), (3, 1)].map Prod.fst) -
        minList ([((1 : ℝ), (2 : ℝ)), (3, 1)].map Prod.fst)) + 0.4 :=
  (C9_viewbox_padding [((1 : ℝ), (2 : ℝ)), (3, 1)] (by simp)).2.2.1

/- ------------------------------------------------------------------ -/
/- Replication ordering (`generate_revolution_shape` final loop).      -/
/- ------------------------------------------------------------------ -/

lemma replicate_length (base : List (List (ℝ × ℝ))) (angles : List ℝ) :
    (replicate base angles).length = angles.length * base.length := by
  induction angles with
  | nil => simp [replicate]
  | cons a as ih =>
    show ((a :: as).flatMap fun x => base.map fun c => rotate c x (0, 0)).length = _
    rw [List.flatMap_cons, List.length_append, List.length_map]
    rw [show (as.flatMap fun x => base.map fun c => rotate c x (0, 0)) =
      replicate base as from rfl, ih]
    rw [List.length_cons, Nat.succ_mul]
    omega

lemma replicate_getElem (base : List (List (ℝ × ℝ))) (angles : List ℝ) (i j : ℕ)
    (hi : i < angles.length) (hj : j < base.length) :
    (replicate base angles)[i * base.length + j]? =
      some (rotate (base.get ⟨j, hj⟩) (angles.get ⟨i, hi⟩) (0, 0)) := by
  induction angles generalizing i with
  | nil => exact absurd hi (Nat.not_lt_zero i)
  | cons a as ih =>
    show ((a :: as).flatMap fun x => base.map fun c => rotate c x (0, 0))[i * base.length + j]? = _
    rw [List.flatMap_cons]
    cases i with
    | zero =>
      simp only [Nat.zero_mul, Nat.zero_add]
      rw [List.getElem?_append_left (by simpa using hj)]
      rw [List.getElem?_map, List.getElem?_eq_getElem hj]
      simp [List.get_eq_getElem]
    | succ i2 =>
      have hstep : (i2 + 1) * base.length + j = base.length + (i2 * base.length + j) := by
        rw [Nat.succ_mul]
        omega
      rw [hstep]
      rw [List.getElem?_append_right
        (by rw [List.length_map]; exact Nat.le_add_right base.length _)]
      simp only [List.length_map, Nat.add_sub_cancel_left]
      have hi2 : i2 < as.length := Nat.lt_of_succ_lt_succ hi
      have := ih i2 hi2
      rw [show (replicate base as) =
        (as.flatMap fun x => base.map fun c => rotate c x (0, 0)) from rfl] at this
      rw [this]
      simp [List.get_eq_getElem]

/-- Claim C8: the replication output has length `len(angles) × len(base)` and
is ordered angle-major then contour-minor: entry `i·len(base)+j` is
`rotate(base[j], angles[i])` about the origin; with 3 base contours and the
static angles `{0°, 120°, 240°}` the output is exactly 9 contours in that
deterministic order. -/
theorem C8_replication_order (base : List (List (ℝ × ℝ))) (angles : List ℝ)
    (i j : ℕ) (hi : i < angles.length) (hj : j < base.length) :
    (replicate base angles).length = angles.length * base.length ∧
    (replicate base angles)[i * base.length + j]? =
      some (rotate (base.get ⟨j, hj⟩) (angles.get ⟨i, hi⟩) (0, 0)) ∧
    (base.length = 3 → (replicate base [0, 120, 240]).length = 9) := by
  refine ⟨replicate_length base angles, replicate_getElem base angles i j hi hj, ?_⟩
  intro h3
  rw [replicate_length]
  simp [h3]

/-- Witness for C8: a 3-contour base replicated over `{0°, 120°, 240°}`,
checked at the angle-major position `i = 2, j = 1` (entry 7). -/
theorem C8_witness :
    (replicate [[((1 : ℝ), (0 : ℝ))], [((0 : ℝ), (1 : ℝ))], [((2 : ℝ), (3 : ℝ))]]
        [0, 120, 240])[7]? =
      some (rotate [((0 : ℝ), (1 : ℝ))] 240 (0, 0)) :=
  (C8_replication_order [[((1 : ℝ), (0 : ℝ))], [((0 : ℝ), (1 : ℝ))], [((2 : ℝ), (3 : ℝ))]]
    [0, 120, 240] 2 1 (by decide) (by decide)).2.1

/- ------------------------------------------------------------------ -/
/- Line-joint fillet (rounded joint between `seg4` and its reflection). -/
/- ------------------------------------------------------------------ -/

/-- `np.clip(x, -1.0, 1.0)`. -/
noncomputable def clampUnit (x : ℝ) : ℝ := max (-1) (min x 1)

/-- The joint half-angle computed by the source:
`theta = arccos(clip(dot(u, v), -1, 1)) / 2` with `u = normalize(A - B)` and
`v = normalize(C - B)`. -/
noncomputable def lineJointTheta (A B C : ℝ × ℝ) : ℝ :=
  Real.arccos (clampUnit (dot (unitize (A.1 - B.1, A.2 - B.2))
    (unitize (C.1 - B.1, C.2 - B.2)))) / 2

/-- The fillet center computed by the source:
`center = B + (R_joint / sin theta) * bisector` with
`bisector = normalize(u + v)`. -/
noncomputable def lineJointCenter (A B C : ℝ × ℝ) (r : ℝ) : ℝ × ℝ :=
  let u := unitize (A.1 - B.1, A.2 - B.2)
  let v := unitize (C.1 - B.1, C.2 - B.2)
  let bis := unitize (u.1 + v.1, u.2 + v.2)
  let d := r / Real.sin (lineJointTheta A B C)
  (B.1 + d * bis.1, B.2 + d * bis.2)

/-- Distance from point `p` to the line through `a` with direction `dir`. -/
noncomputable def distPointLine (p a dir : ℝ × ℝ) : ℝ :=
  |cross (p.1 - a.1, p.2 - a.2) dir| / enorm dir

lemma norm2_nonneg (p : ℝ × ℝ) : 0 ≤ norm2 p :=
  add_nonneg (sq_nonneg p.1) (sq_nonneg p.2)

lemma enorm_nonneg (p : ℝ × ℝ) : 0 ≤ enorm p := Real.sqrt_nonneg _

lemma enorm_sq (p : ℝ × ℝ) : enorm p ^ 2 = norm2 p := Real.sq_sqrt (norm2_nonneg p)

lemma norm2_eq_zero_iff (p : ℝ × ℝ) : norm2 p = 0 ↔ p = 0 := by
  constructor
  · intro h
    unfold norm2 at h
    have h1 : p.1 ^ 2 = 0 := le_antisymm (by nlinarith [sq_nonneg p.2]) (sq_nonneg p.1)
    have h2 : p.2 ^ 2 = 0 := le_antisymm (by nlinarith [sq_nonneg p.1]) (sq_nonneg p.2)
    rw [Prod.ext_iff]
    exact ⟨(pow_eq_zero_iff (by norm_num : (2 : ℕ) ≠ 0)).mp h1,
      (pow_eq_zero_iff (by norm_num : (2 : ℕ) ≠ 0)).mp h2⟩
  · intro h
    rw [h]
    simp [norm2]

lemma enorm_eq_zero_iff (p : ℝ × ℝ) : enorm p = 0 ↔ p = 0 := by
  rw [enorm, Real.sqrt_eq_zero (norm2_nonneg p), norm2_eq_zero_iff]

lemma enorm_pos_of_ne (p : ℝ × ℝ) (h : p ≠ 0) : 0 < enorm p :=
  lt_of_le_of_ne (enorm_nonneg p) (fun he => h ((enorm_eq_zero_iff p).mp he.symm))

lemma norm2_pos_of_ne (p : ℝ × ℝ) (h : p ≠ 0) : 0 < norm2 p :=
  lt_of_le_of_ne (norm2_nonneg p) (fun hn => h ((norm2_eq_zero_iff p).mp hn.symm))

lemma norm2_unitize (p : ℝ × ℝ) (h : p ≠ 0) : norm2 (unitize p) = 1 := by
  have hpos : 0 < enorm p := enorm_pos_of_ne p h
  have he : enorm p ^ 2 = norm2 p := enorm_sq p
  have hn : norm2 p ≠ 0 := ne_of_gt (norm2_pos_of_ne p h)
  unfold norm2 at hn
  unfold unitize norm2
  have hexp : ((enorm p)⁻¹ * p.1) ^ 2 + ((enorm p)⁻¹ * p.2) ^ 2 =
      (enorm p ^ 2)⁻¹ * (p.1 ^ 2 + p.2 ^ 2) := by ring
  rw [hexp, he]
  unfold norm2
  exact inv_mul_cancel₀ hn

lemma sub_pair_ne_zero (A B : ℝ × ℝ) (h : A ≠ B) : (A.1 - B.1, A.2 - B.2) ≠ (0 : ℝ × ℝ) := by
  intro h0
  apply h
  rw [Prod.ext_iff] at h0 ⊢
  obtain ⟨h1, h2⟩ := h0
  simp only [Prod.fst_zero, Prod.snd_zero] at h1 h2
  constructor
  · linarith
  · linarith

lemma cross_line_scale (q w : ℝ × ℝ) (h : w ≠ 0) :
    cross q w = enorm w * cross q (unitize w) := by
  have hne : enorm w ≠ 0 := ne_of_gt (enorm_pos_of_ne w h)
  unfold cross unitize
  field_simp
  try ring

lemma unitize_smul_pos (p : ℝ × ℝ) (t : ℝ) (ht : 0 < t) (hp : p ≠ 0) :
    unitize (t * p.1, t * p.2) = unitize p := by
  have hs : Real.sqrt (p.1 ^ 2 + p.2 ^ 2) ≠ 0 := by
    have := enorm_pos_of_ne p hp
    unfold enorm norm2 at this
    exact ne_of_gt this
  unfold unitize enorm norm2
  simp only
  have hsc : Real.sqrt ((t * p.1) ^ 2 + (t * p.2) ^ 2) =
      t * Real.sqrt (p.1 ^ 2 + p.2 ^ 2) := by
    rw [show (t * p.1) ^ 2 + (t * p.2) ^ 2 = t ^ 2 * (p.1 ^ 2 + p.2 ^ 2) by ring]
    rw [Real.sqrt_mul (sq_nonneg t), Real.sqrt_sq ht.le]
  rw [hsc, Prod.ext_iff]
  constructor
  · simp only
    field_simp
    ring
  · simp only
    field_simp
    ring

lemma cross_add_left_sq (u v : ℝ × ℝ) (hu : norm2 u = 1) (hv : norm2 v = 1) :
    cross (u.1 + v.1, u.2 + v.2) u ^ 2 = 1 - dot u v ^ 2 := by
  unfold norm2 at hu hv
  unfold cross dot
  linear_combination (v.1 ^ 2 + v.2 ^ 2) * hu + hv

lemma cross_add_right_sq (u v : ℝ × ℝ) (hu : norm2 u = 1) (hv : norm2 v = 1) :
    cross (u.1 + v.1, u.2 + v.2) v ^ 2 = 1 - dot u v ^ 2 := by
  unfold norm2 at hu hv
  unfold cross dot
  linear_combination (u.1 ^ 2 + u.2 ^ 2) * hv + hu

/-- Core tangency computation: for unit vectors `u`, `v` with
`dot u v ∈ (-1, 1)`, the fillet offset `(r / sin θ) · bisector` has
cross product of magnitude `r` against any unit direction `x` satisfying the
Lagrange identity for `u + v`. -/
lemma lineJoint_offset_cross (u v x : ℝ × ℝ) (hu : norm2 u = 1) (hv : norm2 v = 1)
    (hlo : -1 < dot u v) (hhi : dot u v < 1) (r : ℝ) (hr : 0 ≤ r)
    (hx : cross (u.1 + v.1, u.2 + v.2) x ^ 2 = 1 - dot u v ^ 2) :
    |(r / Real.sin (Real.arccos (clampUnit (dot u v)) / 2)) *
      cross (unitize (u.1 + v.1, u.2 + v.2)) x| = r := by
  have hcl : clampUnit (dot u v) = dot u v := by
    unfold clampUnit
    rw [min_eq_left hhi.le, max_eq_right hlo.le]
  rw [hcl]
  have h2θ : 2 * (Real.arccos (dot u v) / 2) = Real.arccos (dot u v) := by ring
  have hcosa : Real.cos (Real.arccos (dot u v)) = dot u v := Real.cos_arccos hlo.le hhi.le
  have hcos2 : Real.cos (Real.arccos (dot u v) / 2) ^ 2 = 1 / 2 + dot u v / 2 := by
    rw [Real.cos_sq, h2θ, hcosa]
  have hsin2 : Real.sin (Real.arccos (dot u v) / 2) ^ 2 = (1 - dot u v) / 2 := by
    have hpy := Real.sin_sq_add_cos_sq (Real.arccos (dot u v) / 2)
    linarith
  have hθpos : 0 < Real.arccos (dot u v) / 2 :=
    div_pos (Real.arccos_pos.mpr hhi) two_pos
  have hθlt : Real.arccos (dot u v) / 2 < Real.pi := by
    have h1 := Real.arccos_le_pi (dot u v)
    linarith [Real.pi_pos]
  have hs : 0 < Real.sin (Real.arccos (dot u v) / 2) :=
    Real.sin_pos_of_pos_of_lt_pi hθpos hθlt
  have hn2uv : norm2 (u.1 + v.1, u.2 + v.2) = 2 + 2 * dot u v := by
    unfold norm2 at hu hv ⊢
    unfold dot
    simp only
    linear_combination hu + hv
  have huv0 : ((u.1 + v.1, u.2 + v.2) : ℝ × ℝ) ≠ 0 := by
    intro h0
    have hz := (norm2_eq_zero_iff _).mpr h0
    rw [hn2uv] at hz
    linarith
  have hepos : 0 < enorm (u.1 + v.1, u.2 + v.2) := enorm_pos_of_ne _ huv0
  have he2 : enorm (u.1 + v.1, u.2 + v.2) ^ 2 = 2 + 2 * dot u v := by
    rw [enorm_sq, hn2uv]
  have hse : Real.sin (Real.arccos (dot u v) / 2) * enorm (u.1 + v.1, u.2 + v.2) =
      Real.sqrt (1 - dot u v ^ 2) := by
    have hprod : (Real.sin (Real.arccos (dot u v) / 2) *
        enorm (u.1 + v.1, u.2 + v.2)) ^ 2 = 1 - dot u v ^ 2 := by
      rw [mul_pow, hsin2, he2]
      ring
    rw [← hprod, Real.sqrt_sq (by positivity)]
  have hcb : cross (unitize (u.1 + v.1, u.2 + v.2)) x =
      (enorm (u.1 + v.1, u.2 + v.2))⁻¹ * cross (u.1 + v.1, u.2 + v.2) x := by
    unfold cross unitize
    simp only
    ring
  rw [hcb, abs_mul, abs_mul]
  rw [abs_of_nonneg (div_nonneg hr hs.le), abs_of_nonneg (inv_nonneg.mpr hepos.le)]
  rw [← Real.sqrt_sq_eq_abs, hx, ← hse]
  field_simp
  try ring

/-- The perpendicular distance from the fillet center to the supporting line,
rewritten through the unit direction of the segment. -/
lemma dist_center_line (B w : ℝ × ℝ) (d : ℝ) (bis : ℝ × ℝ) (hw : w ≠ 0) :
    distPointLine (B.1 + d * bis.1, B.2 + d * bis.2) B w =
      |d * cross bis (unitize w)| := by
  unfold distPointLine
  have hq : ((((B.1 + d * bis.1, B.2 + d * bis.2) : ℝ × ℝ)).1 - B.1,
      (((B.1 + d * bis.1, B.2 + d * bis.2) : ℝ × ℝ)).2 - B.2) =
      ((d * bis.1, d * bis.2) : ℝ × ℝ) := by
    rw [Prod.mk.injEq]
    constructor <;> · simp only; ring
  rw [hq, cross_line_scale _ w hw, abs_mul, abs_of_nonneg (enorm_nonneg w)]
  have hcdb : cross ((d * bis.1, d * bis.2) : ℝ × ℝ) (unitize w) =
      d * cross bis (unitize w) := by
    unfold cross
    simp only
    ring
  rw [hcdb]
  exact mul_div_cancel_left₀ _ (ne_of_gt (enorm_pos_of_ne w hw))

/-- Claim C5: the line-joint fillet center equals
`B + (radius / sin θ) · bisector` with `θ = arccos(clamp(u·v, −1, 1)) / 2`
and `bisector = normalize(u + v)`, and the distance from this center to each
of the two segments' supporting lines equals the requested radius exactly
(hence within the claimed `1e-6`). -/
theorem C5_line_joint_fillet (A B C : ℝ × ℝ) (r : ℝ) (hA : A ≠ B) (hC : C ≠ B)
    (hlo : -1 < dot (unitize (A.1 - B.1, A.2 - B.2)) (unitize (C.1 - B.1, C.2 - B.2)))
    (hhi : dot (unitize (A.1 - B.1, A.2 - B.2)) (unitize (C.1 - B.1, C.2 - B.2)) < 1)
    (hr : 0 ≤ r) :
    lineJointCenter A B C r =
      (B.1 + (r / Real.sin (lineJointTheta A B C)) *
         (unitize ((unitize (A.1 - B.1, A.2 - B.2)).1 + (unitize (C.1 - B.1, C.2 - B.2)).1,
           (unitize (A.1 - B.1, A.2 - B.2)).2 + (unitize (C.1 - B.1, C.2 - B.2)).2)).1,
       B.2 + (r / Real.sin (lineJointTheta A B C)) *
         (unitize ((unitize (A.1 - B.1, A.2 - B.2)).1 + (unitize (C.1 - B.1, C.2 - B.2)).1,
           (unitize (A.1 - B.1, A.2 - B.2)).2 + (unitize (C.1 - B.1, C.2 - B.2)).2)).2) ∧
    distPointLine (lineJointCenter A B C r) B (A.1 - B.1, A.2 - B.2) = r ∧
    distPointLine (lineJointCenter A B C r) B (C.1 - B.1, C.2 - B.2) = r := by
  have hwA : ((A.1 - B.1, A.2 - B.2) : ℝ × ℝ) ≠ 0 := sub_pair_ne_zero A B hA
  have hwC : ((C.1 - B.1, C.2 - B.2) : ℝ × ℝ) ≠ 0 := sub_pair_ne_zero C B hC
  have hu : norm2 (unitize (A.1 - B.1, A.2 - B.2)) = 1 := norm2_unitize _ hwA
  have hv : norm2 (unitize (C.1 - B.1, C.2 - B.2)) = 1 := norm2_unitize _ hwC
  have hcen : lineJointCenter A B C r =
      ((B.1 + (r / Real.sin (lineJointTheta A B C)) *
         (unitize ((unitize (A.1 - B.1, A.2 - B.2)).1 + (unitize (C.1 - B.1, C.2 - B.2)).1,
           (unitize (A.1 - B.1, A.2 - B.2)).2 + (unitize (C.1 - B.1, C.2 - B.2)).2)).1,
       B.2 + (r / Real.sin (lineJointTheta A B C)) *
         (unitize ((unitize (A.1 - B.1, A.2 - B.2)).1 + (unitize (C.1 - B.1, C.2 - B.2)).1,
           (unitize (A.1 - B.1, A.2 - B.2)).2 + (unitize (C.1 - B.1, C.2 - B.2)).2)).2) :
        ℝ × ℝ) := rfl
  have hθ : lineJointTheta A B C =
      Real.arccos (clampUnit (dot (unitize (A.1 - B.1, A.2 - B.2))
        (unitize (C.1 - B.1, C.2 - B.2)))) / 2 := rfl
  refine ⟨hcen, ?_, ?_⟩
  · rw [hcen, dist_center_line B (A.1 - B.1, A.2 - B.2)
      (r / Real.sin (lineJointTheta A B C))
      (unitize ((unitize (A.1 - B.1, A.2 - B.2)).1 + (unitize (C.1 - B.1, C.2 - B.2)).1,
        (unitize (A.1 - B.1, A.2 - B.2)).2 + (unitize (C.1 - B.1, C.2 - B.2)).2)) hwA, hθ]
    exact lineJoint_offset_cross (unitize (A.1 - B.1, A.2 - B.2))
      (unitize (C.1 - B.1, C.2 - B.2)) (unitize (A.1 - B.1, A.2 - B.2))
      hu hv hlo hhi r hr (cross_add_left_sq _ _ hu hv)
  · rw [hcen, dist_center_line B (C.1 - B.1, C.2 - B.2)
      (r / Real.sin (lineJointTheta A B C))
      (unitize ((unitize (A.1 - B.1, A.2 - B.2)).1 + (unitize (C.1 - B.1, C.2 - B.2)).1,
        (unitize (A.1 - B.1, A.2 - B.2)).2 + (unitize (C.1 - B.1, C.2 - B.2)).2)) hwC, hθ]
    exact lineJoint_offset_cross (unitize (A.1 - B.1, A.2 - B.2))
      (unitize (C.1 - B.1, C.2 - B.2)) (unitize (C.1 - B.1, C.2 - B.2))
      hu hv hlo hhi r hr (cross_add_right_sq _ _ hu hv)

/-- Witness for C5: the right-angle joint `A = (1,0)`, `B = (0,0)`,
`C = (0,1)` with radius 1: the computed center is at distance 1 from both
supporting lines. -/
theorem C5_witness :
    distPointLine (lineJointCenter (1, 0) (0, 0) (0, 1) 1) (0, 0)
        ((1 : ℝ) - 0, (0 : ℝ) - 0) = 1 ∧
    distPointLine (lineJointCenter (1, 0) (0, 0) (0, 1) 1) (0, 0)
        ((0 : ℝ) - 0, (1 : ℝ) - 0) = 1 :=
  ⟨(C5_line_joint_fillet (1, 0) (0, 0) (0, 1) 1 (by simp) (by simp)
      (by norm_num [dot, unitize, enorm, norm2, Real.sqrt_one])
      (by norm_num [dot, unitize, enorm, norm2, Real.sqrt_one]) (by norm_num)).2.1,
   (C5_line_joint_fillet (1, 0) (0, 0) (0, 1) 1 (by simp) (by simp)
      (by norm_num [dot, unitize, enorm, norm2, Real.sqrt_one])
      (by norm_num [dot, unitize, enorm, norm2, Real.sqrt_one]) (by norm_num)).2.2⟩

/-- For two collinear, same-direction segments at `B` (the far endpoint `C`
lying on the ray from `B` through `A`) the computed joint half-angle is 0,
`sin θ = 0`, and the unguarded division `radius / sin θ` produces a junk
center (the real-number model yields `B`; numpy yields a non-finite center)
instead of any error being raised. -/
lemma lineJoint_collinear (A B : ℝ × ℝ) (t r : ℝ) (hAB : A ≠ B) (ht : 0 < t) :
    lineJointTheta A B (B.1 + t * (A.1 - B.1), B.2 + t * (A.2 - B.2)) = 0 ∧
    Real.sin (lineJointTheta A B (B.1 + t * (A.1 - B.1), B.2 + t * (A.2 - B.2))) = 0 ∧
    lineJointCenter A B (B.1 + t * (A.1 - B.1), B.2 + t * (A.2 - B.2)) r = B := by
  have hw : ((A.1 - B.1, A.2 - B.2) : ℝ × ℝ) ≠ 0 := sub_pair_ne_zero A B hAB
  have hsub : ((((B.1 + t * (A.1 - B.1), B.2 + t * (A.2 - B.2)) : ℝ × ℝ)).1 - B.1,
      (((B.1 + t * (A.1 - B.1), B.2 + t * (A.2 - B.2)) : ℝ × ℝ)).2 - B.2) =
      ((t * (A.1 - B.1), t * (A.2 - B.2)) : ℝ × ℝ) := by
    rw [Prod.mk.injEq]
    constructor <;> · simp only; ring
  have huC : unitize ((((B.1 + t * (A.1 - B.1), B.2 + t * (A.2 - B.2)) : ℝ × ℝ)).1 - B.1,
      (((B.1 + t * (A.1 - B.1), B.2 + t * (A.2 - B.2)) : ℝ × ℝ)).2 - B.2) =
      unitize (A.1 - B.1, A.2 - B.2) := by
    rw [hsub]
    exact unitize_smul_pos (A.1 - B.1, A.2 - B.2) t ht hw
  have hdot : dot (unitize (A.1 - B.1, A.2 - B.2)) (unitize (A.1 - B.1, A.2 - B.2)) = 1 := by
    have h1 := norm2_unitize _ hw
    unfold norm2 at h1
    unfold dot
    linear_combination h1
  have hθ0 : lineJointTheta A B (B.1 + t * (A.1 - B.1), B.2 + t * (A.2 - B.2)) = 0 := by
    unfold lineJointTheta
    rw [huC, hdot]
    unfold clampUnit
    rw [min_self, max_eq_right (by norm_num : (-1 : ℝ) ≤ 1), Real.arccos_one]
    norm_num
  refine ⟨hθ0, by rw [hθ0]; exact Real.sin_zero, ?_⟩
  simp only [lineJointCenter]
  rw [hθ0, Real.sin_zero, div_zero]
  rw [Prod.ext_iff]
  constructor <;> · simp only; ring

/-- Counterexample to claim C4: for the collinear joint `A = (1,0)`,
`B = (0,0)`, `C = (2,0)` (half-angle `θ = 0`) the computation does not fail:
no error path exists, `sin θ = 0`, and the unguarded `radius / sin θ`
produces a junk center (here `(0,0)` under the real division-by-zero
convention; `inf`/`nan` under numpy) rather than a DomainError. -/
theorem C4_counterexample :
    lineJointTheta (1, 0) (0, 0) (2, 0) = 0 ∧
    Real.sin (lineJointTheta (1, 0) (0, 0) (2, 0)) = 0 ∧
    lineJointCenter (1, 0) (0, 0) (2, 0) 0.3 = (0, 0) := by
  have h := lineJoint_collinear (1, 0) (0, 0) 2 0.3 (by simp) (by norm_num)
  have hC : ((((0 : ℝ), (0 : ℝ)) : ℝ × ℝ).1 + 2 * ((((1 : ℝ), (0 : ℝ)) : ℝ × ℝ).1 -
        (((0 : ℝ), (0 : ℝ)) : ℝ × ℝ).1),
      (((0 : ℝ), (0 : ℝ)) : ℝ × ℝ).2 + 2 * ((((1 : ℝ), (0 : ℝ)) : ℝ × ℝ).2 -
        (((0 : ℝ), (0 : ℝ)) : ℝ × ℝ).2)) = (((2 : ℝ), (0 : ℝ)) : ℝ × ℝ) := by
    norm_num
  rw [hC] at h
  exact h

/-- Claim C4 (amended): for every pair of collinear same-direction segments
sharing vertex `B` the line-joint computation performs no check and does not
fail: the half-angle is exactly 0, `sin θ = 0`, and the center is produced by
the unguarded division `radius / sin θ` (non-finite at runtime; the junk
value `B` in the real-number model) — no DomainError is raised. -/
theorem C4_no_collinearity_check (A B : ℝ × ℝ) (t r : ℝ) (hAB : A ≠ B) (ht : 0 < t) :
    lineJointTheta A B (B.1 + t * (A.1 - B.1), B.2 + t * (A.2 - B.2)) = 0 ∧
    Real.sin (lineJointTheta A B (B.1 + t * (A.1 - B.1), B.2 + t * (A.2 - B.2))) = 0 ∧
    lineJointCenter A B (B.1 + t * (A.1 - B.1), B.2 + t * (A.2 - B.2)) r = B :=
  lineJoint_collinear A B t r hAB ht

/-- Witness for the amended claim C4 at a concrete collinear configuration. -/
theorem C4_witness :
    lineJointTheta (1, 0) (0, 0)
        ((0 : ℝ) + 2 * ((1 : ℝ) - 0), (0 : ℝ) + 2 * ((0 : ℝ) - 0)) = 0 ∧
    Real.sin (lineJointTheta (1, 0) (0, 0)
        ((0 : ℝ) + 2 * ((1 : ℝ) - 0), (0 : ℝ) + 2 * ((0 : ℝ) - 0))) = 0 ∧
    lineJointCenter (1, 0) (0, 0)
        ((0 : ℝ) + 2 * ((1 : ℝ) - 0), (0 : ℝ) + 2 * ((0 : ℝ) - 0)) 0.3 = (0, 0) :=
  C4_no_collinearity_check (1, 0) (0, 0) 2 0.3 (by simp) (by norm_num)

end SpinPAK
